import Mathlib

/-!
Shallow embedding of the Trade Republic PDF-statement parsers of this
repository (`src/app.py`, duplicated verbatim in
`src/Aggregator/Code/app.py`): the cash-statement parser
`parse_tr_cash_statement`, the standalone securities-total parser
`parse_tr_securities_statement`, and the position-aware parser
`parse_tr_securities_statement_with_positions`.

Modelling choices:
* Text is a `List Char`; PDF byte extraction (`extract_text_from_pdf`) is
  abstracted away: the parsers are modelled as functions of the extracted
  text, exactly as the Python functions behave after the extraction call.
* Python `float` values are modelled as exact rationals `ℚ`; every numeric
  string reaching `float()` in this code is a plain decimal (digits with an
  optional single `.`), so the rational value is the mathematical content
  of the conversion.
* The regular expressions are embedded as executable matching functions
  with Python `re` semantics (leftmost match, greedy with backtracking,
  non-overlapping `findall`), specialised to the four concrete patterns the
  source uses.  Character classes are modelled at ASCII granularity
  (`\d` = `0-9`, `[A-Z]`, `\w` = alphanumeric or `_`, `\s` = ASCII blanks),
  which is faithful for every character class these patterns constrain.
* `ValueError` raises are modelled with `Except ParseError`.
-/

namespace Elara

/-- ASCII whitespace, as stripped by Python `str.strip` and matched by `\s`. -/
def isWs (c : Char) : Bool :=
  c = ' ' || c = '\t' || c = '\n' || c = '\r' || c = '\x0b' || c = '\x0c'

/-- Python `str.splitlines` (modelled for `\n`-separated text, the separator
`extract_text_from_pdf` produces): no trailing empty line for trailing `\n`. -/
def pysplitlines : List Char → List (List Char)
  | [] => []
  | '\n' :: rest => [] :: pysplitlines rest
  | c :: rest =>
    match pysplitlines rest with
    | [] => [[c]]
    | l :: ls => (c :: l) :: ls

/-- Python `str.strip()`. -/
def pystrip (l : List Char) : List Char :=
  ((l.dropWhile isWs).reverse.dropWhile isWs).reverse

/-- Does `n` occur at the start of `hay`? -/
def leadsWith : List Char → List Char → Bool
  | [], _ => true
  | _ :: _, [] => false
  | a :: as, b :: bs => a = b && leadsWith as bs

/-- Python substring test `n in hay`. -/
def containsSub (n : List Char) : List Char → Bool
  | [] => leadsWith n []
  | hay@(_ :: t) => leadsWith n hay || containsSub n t

/-! ### The amount regular expressions

The bare amount pattern is `\d{1,3}(?:\.\d{3})*,\d{2}`; the total pattern
adds a `\s*EUR` suffix.  Matching at a fixed position tries the leading
digit count `k = 3, 2, 1` and, for each `k`, the group count `j` from the
maximal chain downwards, exactly in Python's greedy backtracking order. -/

/-- Does `,` followed by two digits start here? (the `,\d{2}` tail). -/
def commaDD : List Char → Bool
  | ',' :: a :: b :: _ => a.isDigit && b.isDigit
  | _ => false

/-- Length of the maximal chain of `\.\d{3}` groups starting here. -/
def countGroups : List Char → Nat
  | '.' :: a :: b :: c :: rest =>
    if a.isDigit && b.isDigit && c.isDigit then countGroups rest + 1 else 0
  | _ => 0

/-- Does the amount body with `k` leading digits and `j` thousand-groups fit
at the start of `l`?  (The chain property of `countGroups` makes `j ≤ max`
equivalent to the first `j` groups matching.) -/
def amountFitsKJ (l : List Char) (k j : Nat) : Bool :=
  decide ((l.take k).length = k) && (l.take k).all Char.isDigit &&
    decide (j ≤ countGroups (l.drop k)) && commaDD (l.drop (k + 4 * j))

/-- Try group counts `j, j-1, …, 0` (greedy order); `suffix` is the check for
what the pattern requires after the amount (`\s*EUR`, or nothing).  Returns
the matched amount length `k + 4*j + 3`. -/
def tryJ (l : List Char) (k : Nat) (suffix : List Char → Bool) : Nat → Option Nat
  | 0 =>
    if amountFitsKJ l k 0 && suffix (l.drop (k + 3)) then some (k + 3) else none
  | j + 1 =>
    if amountFitsKJ l k (j + 1) && suffix (l.drop (k + 4 * (j + 1) + 3)) then
      some (k + 4 * (j + 1) + 3)
    else tryJ l k suffix j

/-- Attempt a match at this position with exactly `k` leading digits. -/
def matchAtK (l : List Char) (suffix : List Char → Bool) (k : Nat) : Option Nat :=
  if decide ((l.take k).length = k) && (l.take k).all Char.isDigit then
    tryJ l k suffix (countGroups (l.drop k))
  else none

/-- Match of the amount pattern anchored at the start of `l`, in Python's
backtracking order (`k = 3` first): returns the amount length. -/
def matchAt (l : List Char) (suffix : List Char → Bool) : Option Nat :=
  match matchAtK l suffix 3 with
  | some n => some n
  | none =>
    match matchAtK l suffix 2 with
    | some n => some n
    | none => matchAtK l suffix 1

/-- Scanning worker for `re.findall` of the bare amount pattern: leftmost,
non-overlapping, resuming after each match.  The fuel is the remaining
length; every step consumes at least one character. -/
def findAmountsAux : Nat → List Char → List (List Char)
  | 0, _ => []
  | _ + 1, [] => []
  | fuel + 1, l@(_ :: t) =>
    match matchAt l (fun _ => true) with
    | some n => l.take n :: findAmountsAux fuel (l.drop n)
    | none => findAmountsAux fuel t

/-- `re.findall(r"(\d{1,3}(?:\.\d{3})*,\d{2})", line)`. -/
def findAmounts (l : List Char) : List (List Char) :=
  findAmountsAux l.length l

/-- The `\s*EUR` suffix: greedy whitespace then literal `EUR` (since `E` is
not whitespace, only the maximal whitespace run can precede it). -/
def eurSuffix (l : List Char) : Bool :=
  match l.dropWhile isWs with
  | 'E' :: 'U' :: 'R' :: _ => true
  | _ => false

/-- `re.search` of `(\d{1,3}(?:\.\d{3})*,\d{2})\s*EUR`, returning `group(1)`
(the amount, without the suffix). -/
def totalSearch : List Char → Option (List Char)
  | [] => none
  | l@(_ :: t) =>
    match matchAt l eurSuffix with
    | some n => some (l.take n)
    | none => totalSearch t

/-! ### Numeric conversion -/

/-- Python `s.replace(".", "")`. -/
def stripDots (l : List Char) : List Char := l.filter (fun c => c != '.')

/-- Python `s.replace(",", ".")`. -/
def commaToDot (l : List Char) : List Char :=
  l.map (fun c => if c = ',' then '.' else c)

/-- Value of a digit string. -/
def digitsToNat (l : List Char) : Nat :=
  l.foldl (fun n c => n * 10 + (c.toNat - '0'.toNat)) 0

/-- Python `float()` on the decimal strings this code produces: digits with
an optional single `.` and a nonempty fraction.  Exact rational value. -/
def parsePyFloat? (l : List Char) : Option ℚ :=
  if (l.takeWhile Char.isDigit).isEmpty then none
  else
    match l.dropWhile Char.isDigit with
    | [] => some ((digitsToNat (l.takeWhile Char.isDigit) : ℚ))
    | '.' :: frac =>
      if !frac.isEmpty && frac.all Char.isDigit then
        some (mkRat (digitsToNat (l.takeWhile Char.isDigit) * 10 ^ frac.length +
          digitsToNat frac) (10 ^ frac.length))
      else none
    | _ => none

/-- `s.replace(".", "").replace(",", ".")` then `float`, the conversion all
three parsers apply to a matched amount token.  The argument always matches
the amount pattern at the call sites, so the fallback value is never used. -/
def convertAmount (l : List Char) : ℚ :=
  (parsePyFloat? (commaToDot (stripDots l))).getD 0

/-! ### The ISIN and trailing-quantity patterns -/

/-- `[A-Z0-9]`. -/
def isAZ09 (c : Char) : Bool := c.isUpper || c.isDigit

/-- Exactly twelve characters matching `[A-Z]{2}[A-Z0-9]{9}\d`. -/
def isinShape (w : List Char) : Bool :=
  match w with
  | [a, b, c1, c2, c3, c4, c5, c6, c7, c8, c9, d] =>
    a.isUpper && b.isUpper && isAZ09 c1 && isAZ09 c2 && isAZ09 c3 && isAZ09 c4 &&
      isAZ09 c5 && isAZ09 c6 && isAZ09 c7 && isAZ09 c8 && isAZ09 c9 && d.isDigit
  | _ => false

/-- Python `\w` (ASCII). -/
def isWordChar (c : Char) : Bool := c.isAlphanum || c = '_'

/-- Word boundary `\b` before the match: previous character absent or non-word. -/
def boundaryOk : Option Char → Bool
  | none => true
  | some p => !isWordChar p

/-- Word boundary `\b` after the match. -/
def afterOk : List Char → Bool
  | [] => true
  | c :: _ => !isWordChar c

/-- Scanning worker for `re.search(r"\b([A-Z]{2}[A-Z0-9]{9}\d)\b", line)`,
carrying the previous character for the left boundary. -/
def isinSearchAux (prev : Option Char) : List Char → Option (List Char)
  | [] => none
  | c :: t =>
    let w := (c :: t).take 12
    if boundaryOk prev && isinShape w && afterOk ((c :: t).drop 12) then some w
    else isinSearchAux (some c) t

/-- First ISIN-shaped token of a line (`isin_match.group(0)`). -/
def isinSearch (l : List Char) : Option (List Char) :=
  isinSearchAux none l

/-- Does the whole of `t` match `\d+(?:[\.,]\d+)?`? -/
def qtyFull (t : List Char) : Bool :=
  let d1 := t.takeWhile Char.isDigit
  let r := t.dropWhile Char.isDigit
  !d1.isEmpty &&
    (r.isEmpty ||
      match r with
      | c :: rest => (c = '.' || c = ',') && !rest.isEmpty && rest.all Char.isDigit
      | [] => false)

/-- `re.search(r"(\d+(?:[\.,]\d+)?)$", line)`: because of the `$` anchor the
match is the first suffix of the line matching the pattern in full. -/
def qtySearch : List Char → Option (List Char)
  | [] => none
  | l@(_ :: t) => if qtyFull l then some l else qtySearch t

/-! ### Marker strings -/

def ivaMark : List Char := "IVA".toList
def pIvaMark : List Char := "P. IVA".toList
def contoMark : List Char := "Conto corrente".toList
def citiMark : List Char := "Citibank".toList
def numeroMark : List Char := "NUMERO DI POSIZIONI".toList

/-! ### The cash parser and the standalone securities-total parser -/

/-- The two `ValueError`s the parsers raise, named as in the spec. -/
inductive ParseError where
  | balanceNotFound
  | portfolioTotalNotFound
deriving DecidableEq

/-- One scan of the line list: for the first line containing `marker` whose
bare-amount `findall` is nonempty, return the last token converted.  This is
the loop body shared by both phases of `parse_tr_cash_statement` and by
`parse_tr_securities_statement`. -/
def findBalanceLine (marker : List Char) : List (List Char) → Option ℚ
  | [] => none
  | l :: rest =>
    if containsSub marker l then
      match (findAmounts l).getLast? with
      | some a => some (convertAmount a)
      | none => findBalanceLine marker rest
    else findBalanceLine marker rest

/-- `parse_tr_cash_statement` (src/app.py:104), as a function of the
extracted text: `"Conto corrente"` scan, then `"Citibank"` fallback scan,
else `ValueError` (`BalanceNotFound`). -/
def parse_tr_cash_statement (text : List Char) : Except ParseError ℚ :=
  match findBalanceLine contoMark (pysplitlines text) with
  | some v => .ok v
  | none =>
    match findBalanceLine citiMark (pysplitlines text) with
    | some v => .ok v
    | none => .error .balanceNotFound

/-- `parse_tr_securities_statement` (src/app.py:138): first
`"NUMERO DI POSIZIONI"` line with a bare amount, last token; else
`ValueError` (`PortfolioTotalNotFound`). -/
def parse_tr_securities_statement (text : List Char) : Except ParseError ℚ :=
  match findBalanceLine numeroMark (pysplitlines text) with
  | some v => .ok v
  | none => .error .portfolioTotalNotFound

/-! ### The position reconstructor -/

/-- One reconstructed position (the dict appended to `positions`). -/
structure Holding where
  name : List Char
  isin : List Char
  quantity : ℚ
  market_value : ℚ
deriving DecidableEq

/-- The mutable loop state: emitted positions plus the `current` accumulator. -/
structure PosState where
  positions : List Holding
  name : List Char
  isin : Option (List Char)
  qty : Option ℚ
deriving DecidableEq

/-- The dict appended on flush: stripped name, captured identifier, quantity
defaulted through Python `or 0.0`, and `market_value` fixed at `0.0`. -/
def mkHolding (st : PosState) : Holding :=
  { name := pystrip st.name
    isin := st.isin.getD []
    quantity := st.qty.getD 0
    market_value := 0 }

def initState : PosState := ⟨[], [], none, none⟩

/-- The name-accumulation fallthrough: `current["name"] += " " + line`,
guarded by an open holding. -/
def appendName (st : PosState) (line : List Char) : PosState :=
  if st.isin.isSome then { st with name := st.name ++ ' ' :: line } else st

/-- One iteration of the reconstruction loop of
`parse_tr_securities_statement_with_positions` (src/app.py:186-217). -/
def processLine (st : PosState) (line : List Char) : PosState :=
  if containsSub ivaMark line || containsSub pIvaMark line then st
  else
    match isinSearch line with
    | some w =>
      let st' :=
        if st.isin.isSome then
          { positions := st.positions ++ [mkHolding st]
            name := [], isin := none, qty := none }
        else st
      { st' with isin := some w }
    | none =>
      match qtySearch line with
      | some q =>
        if st.isin.isSome then
          match parsePyFloat? (commaToDot q) with
          | some v => { st with qty := some v }
          | none => appendName st line
        else appendName st line
      | none => appendName st line

/-- End-of-document flush: a still-open holding is appended. -/
def finishPositions (st : PosState) : List Holding :=
  st.positions ++ (if st.isin.isSome then [mkHolding st] else [])

/-- The whole reconstruction pass over the preprocessed lines. -/
def reconstructPositions (lines : List (List Char)) : List Holding :=
  finishPositions (lines.foldl processLine initState)

/-- Preprocessing of the position-aware parser:
`[l.strip() for l in text.splitlines() if l.strip()]`. -/
def preprocessLines (text : List Char) : List (List Char) :=
  ((pysplitlines text).map pystrip).filter (fun l => !l.isEmpty)

/-- Total extraction of the position-aware parser: first
`"NUMERO DI POSIZIONI"` line with an EUR-suffixed amount match (then
`break`); defaults to `0.0` instead of raising. -/
def findTotal : List (List Char) → ℚ
  | [] => 0
  | l :: rest =>
    if containsSub numeroMark l then
      match totalSearch l with
      | some a => convertAmount a
      | none => findTotal rest
    else findTotal rest

/-- `parse_tr_securities_statement_with_positions` (src/app.py:161), as a
function of the extracted text. -/
def parse_tr_securities_statement_with_positions (text : List Char) :
    ℚ × List Holding :=
  let lines := preprocessLines text
  (findTotal lines, reconstructPositions lines)

/-! ### Specification-side definitions used by the theorems -/

/-- Decidable equality of parser results, for evaluating the model on
concrete statements. -/
instance instDecEqExcept {ε α : Type} [DecidableEq ε] [DecidableEq α] :
    DecidableEq (Except ε α) := fun
  | .error e, .error f =>
    if h : e = f then isTrue (by rw [h])
    else isFalse (fun hc => by injection hc; contradiction)
  | .error _, .ok _ => isFalse (fun hc => by cases hc)
  | .ok _, .error _ => isFalse (fun hc => by cases hc)
  | .ok a, .ok b =>
    if h : a = b then isTrue (by rw [h])
    else isFalse (fun hc => by injection hc; contradiction)

/-- A rendered amount token: the thousand-groups with their separating
dots (`".ddd"` each). -/
def groupRender (groups : List (List Char)) : List Char :=
  (groups.map (fun g => '.' :: g)).flatten

/-- The identifier matches a single line contributes to the reconstruction:
none if the line is skipped by the IVA filter, else the first ISIN match. -/
def lineIsins (l : List Char) : List (List Char) :=
  if containsSub ivaMark l || containsSub pIvaMark l then []
  else
    match isinSearch l with
    | some w => [w]
    | none => []

/-- Identifiers the state will have emitted once flushed: already-emitted
positions followed by the open identifier, if any. -/
def emittedIsins (st : PosState) : List (List Char) :=
  st.positions.map Holding.isin ++
    (match st.isin with
     | some w => [w]
     | none => [])

/-- The invariant carried through the reconstruction loop. -/
def StInv (st : PosState) : Prop :=
  (∀ h ∈ st.positions,
      h.market_value = 0 ∧ 0 ≤ h.quantity ∧ isinShape h.isin = true) ∧
  (∀ w, st.isin = some w → isinShape w = true) ∧
  (∀ v, st.qty = some v → 0 ≤ v)


end Elara

namespace Elara

/-! ### Order of emitted identifiers (claim C2) -/

theorem emittedIsins_congr (st st' : PosState) (hp : st'.positions = st.positions)
    (hi : st'.isin = st.isin) : emittedIsins st' = emittedIsins st := by
  unfold emittedIsins
  rw [hp, hi]

theorem emittedIsins_processLine (st : PosState) (l : List Char) :
    emittedIsins (processLine st l) = emittedIsins st ++ lineIsins l := by
  unfold processLine lineIsins
  by_cases hiva : (containsSub ivaMark l || containsSub pIvaMark l) = true
  · simp [hiva]
  · rw [Bool.not_eq_true] at hiva
    simp only [hiva, Bool.false_eq_true, if_false]
    cases hw : isinSearch l with
    | some w =>
      cases hs : st.isin with
      | some v =>
        simp [emittedIsins, mkHolding, hs]
      | none =>
        simp [emittedIsins, hs]
    | none =>
      have happ : emittedIsins (appendName st l) = emittedIsins st := by
        unfold appendName
        by_cases hsome : st.isin.isSome = true
        · exact emittedIsins_congr _ _ (by simp [hsome]) (by simp [hsome])
        · simp [hsome]
      cases hq : qtySearch l with
      | some q =>
        by_cases hsome : st.isin.isSome = true
        · cases hv : parsePyFloat? (commaToDot q) with
          | some v =>
            simp only [hsome, if_true, hv, List.append_nil]
            exact emittedIsins_congr _ _ rfl rfl
          | none => simp [hsome, hv, happ]
        · simp [hsome, happ]
      | none => simp [happ]

theorem emittedIsins_foldl (ls : List (List Char)) :
    ∀ st : PosState,
      emittedIsins (ls.foldl processLine st) =
        emittedIsins st ++ (ls.map lineIsins).flatten := by
  induction ls with
  | nil => intro st; simp
  | cons l ls ih =>
    intro st
    simp only [List.foldl_cons, List.map_cons, List.flatten_cons]
    rw [ih, emittedIsins_processLine, List.append_assoc]

theorem finishPositions_isins (st : PosState) :
    (finishPositions st).map Holding.isin = emittedIsins st := by
  unfold finishPositions emittedIsins
  cases hs : st.isin with
  | some w => simp [hs, mkHolding]
  | none => simp [hs]

/-- C2: the input `["US0000000001", "Name A", "5", "US0000000002", "Name B",
"3"]` yields exactly two holdings, split at the second identifier; and in
general the identifiers of the emitted holdings are exactly the per-line
identifier matches of the preprocessed text, in order of appearance: a new
identifier flushes the open holding before being captured. -/
theorem positions_split_and_ordered (text : List Char) :
    (parse_tr_securities_statement_with_positions
        (("US0000000001\nName A\n5\nUS0000000002\nName B\n3").toList)).2 =
      [⟨("Name A").toList, ("US0000000001").toList, 5, 0⟩,
       ⟨("Name B").toList, ("US0000000002").toList, 3, 0⟩] ∧
    (parse_tr_securities_statement_with_positions text).2.map Holding.isin =
      ((preprocessLines text).map lineIsins).flatten := by
  constructor
  · decide
  · show (reconstructPositions (preprocessLines text)).map Holding.isin = _
    unfold reconstructPositions
    rw [finishPositions_isins, emittedIsins_foldl]
    simp [emittedIsins, initState]

/-- C3: the four-line scenario produces exactly one holding with the
two name lines joined and the trailing quantity, emitted by the
end-of-document flush. -/
theorem single_position_scenario :
    parse_tr_securities_statement_with_positions
        (("DE000A1EWWW0\nApple Inc\nRegistered Shares\n14").toList) =
      (0, [⟨("Apple Inc Registered Shares").toList, ("DE000A1EWWW0").toList, 14, 0⟩]) := by
  decide

end Elara

namespace Elara

/-! ### Invariants of emitted holdings (claim C9) -/

theorem isinSearchAux_shape (l : List Char) :
    ∀ (prev : Option Char) (w : List Char),
      isinSearchAux prev l = some w → isinShape w = true := by
  induction l with
  | nil => intro prev w h; simp [isinSearchAux] at h
  | cons c t ih =>
    intro prev w h
    unfold isinSearchAux at h
    by_cases hc :
        (boundaryOk prev && isinShape ((c :: t).take 12) &&
          afterOk ((c :: t).drop 12)) = true
    · rw [if_pos hc] at h
      obtain ⟨hc', _⟩ := Bool.and_eq_true_iff.mp hc
      obtain ⟨_, hshape⟩ := Bool.and_eq_true_iff.mp hc'
      cases h
      exact hshape
    · rw [if_neg hc] at h
      exact ih (some c) w h

theorem isinSearch_shape (l w : List Char) (h : isinSearch l = some w) :
    isinShape w = true :=
  isinSearchAux_shape l none w h

theorem parsePyFloat?_nonneg (l : List Char) (v : ℚ)
    (h : parsePyFloat? l = some v) : 0 ≤ v := by
  unfold parsePyFloat? at h
  split at h
  · simp at h
  · split at h
    · injection h with h2
      subst h2
      positivity
    · split at h
      · injection h with h2
        subst h2
        rw [Rat.mkRat_eq_divInt, Rat.divInt_eq_div]
        positivity
      · simp at h
    · simp at h

theorem mkHolding_ok (st : PosState) (hinv : StInv st)
    (hopen : st.isin.isSome = true) :
    (mkHolding st).market_value = 0 ∧ 0 ≤ (mkHolding st).quantity ∧
      isinShape (mkHolding st).isin = true := by
  obtain ⟨-, hisin, hqty⟩ := hinv
  refine ⟨rfl, ?_, ?_⟩
  · show (0 : ℚ) ≤ st.qty.getD 0
    cases hq : st.qty with
    | none => simp
    | some v => simpa using hqty v hq
  · show isinShape (st.isin.getD []) = true
    cases hi : st.isin with
    | none => rw [hi] at hopen; cases hopen
    | some w => simpa using hisin w hi

theorem stInv_processLine (st : PosState) (l : List Char) (hinv : StInv st) :
    StInv (processLine st l) := by
  unfold processLine
  by_cases hiva : (containsSub ivaMark l || containsSub pIvaMark l) = true
  · simpa [hiva] using hinv
  · rw [Bool.not_eq_true] at hiva
    simp only [hiva, Bool.false_eq_true, if_false]
    have happ : StInv (appendName st l) := by
      unfold appendName
      by_cases hsome : st.isin.isSome = true
      · simp only [hsome, if_true]
        exact ⟨hinv.1, hinv.2.1, hinv.2.2⟩
      · simpa [hsome] using hinv
    cases hw : isinSearch l with
    | some w =>
      by_cases hsome : st.isin.isSome = true
      · simp only [hsome, if_true]
        refine ⟨?_, ?_, ?_⟩
        · intro h hh
          simp only [List.mem_append, List.mem_singleton] at hh
          rcases hh with hh | hh
          · exact hinv.1 h hh
          · subst hh; exact mkHolding_ok st hinv hsome
        · intro w' hw'
          cases hw'
          exact isinSearch_shape l w hw
        · intro v hv; cases hv
      · simp only [hsome, Bool.false_eq_true, if_false]
        refine ⟨hinv.1, ?_, hinv.2.2⟩
        intro w' hw'
        cases hw'
        exact isinSearch_shape l w hw
    | none =>
      cases hq : qtySearch l with
      | some q =>
        by_cases hsome : st.isin.isSome = true
        · cases hv : parsePyFloat? (commaToDot q) with
          | some v =>
            simp only [hsome, if_true, hv]
            refine ⟨hinv.1, hinv.2.1, ?_⟩
            intro v' hv'
            cases hv'
            exact parsePyFloat?_nonneg _ _ hv
          | none => simp only [hsome, if_true, hv]; exact happ
        · simp only [hsome, Bool.false_eq_true, if_false]; exact happ
      | none => exact happ

theorem stInv_foldl (ls : List (List Char)) :
    ∀ st : PosState, StInv st → StInv (ls.foldl processLine st) := by
  induction ls with
  | nil => intro st h; simpa using h
  | cons l ls ih =>
    intro st h
    simpa using ih (processLine st l) (stInv_processLine st l h)

theorem stInv_init : StInv initState := by
  refine ⟨?_, ?_, ?_⟩ <;> intro h hh <;> simp [initState] at hh

/-- C9: every holding emitted by the position reconstructor, on every input,
has `market_value = 0`, a non-negative quantity (`0.0` when no quantity line
was seen), and an identifier of the twelve-character ISIN shape; the model
is a total function (no raise), and the single-identifier input shows the
empty-name and zero-quantity defaults. -/
theorem emitted_holding_invariants (text : List Char) (h : Holding)
    (hmem : h ∈ (parse_tr_securities_statement_with_positions text).2) :
    h.market_value = 0 ∧ 0 ≤ h.quantity ∧ isinShape h.isin = true ∧
      parse_tr_securities_statement_with_positions (("US0000000001").toList) =
        (0, [⟨[], ("US0000000001").toList, 0, 0⟩]) := by
  have hfin :
      StInv ((preprocessLines text).foldl processLine initState) :=
    stInv_foldl _ initState stInv_init
  have hmem' : h ∈ finishPositions ((preprocessLines text).foldl processLine initState) := hmem
  unfold finishPositions at hmem'
  simp only [List.mem_append] at hmem'
  have hok : h.market_value = 0 ∧ 0 ≤ h.quantity ∧ isinShape h.isin = true := by
    rcases hmem' with hh | hh
    · exact hfin.1 h hh
    · by_cases hsome :
          ((preprocessLines text).foldl processLine initState).isin.isSome = true
      · simp only [hsome, if_true, List.mem_singleton] at hh
        subst hh
        exact mkHolding_ok _ hfin hsome
      · simp [hsome] at hh
  exact ⟨hok.1, hok.2.1, hok.2.2, by decide⟩

/-- Witness for C9 at a concrete input and holding. -/
theorem emitted_holding_invariants_witness :
    (Holding.mk [] (("US0000000001").toList) 0 0).market_value = 0 ∧
      (0 : ℚ) ≤ (Holding.mk [] (("US0000000001").toList) 0 0).quantity ∧
      isinShape (Holding.mk [] (("US0000000001").toList) 0 0).isin = true ∧
      parse_tr_securities_statement_with_positions (("US0000000001").toList) =
        (0, [⟨[], ("US0000000001").toList, 0, 0⟩]) :=
  emitted_holding_invariants (("US0000000001").toList) _ (by decide)

end Elara

namespace Elara

/-! ### Behaviour of the marker scans (claims C5, C6, C7) -/

theorem findBalanceLine_eq_none_iff (m : List Char) (ls : List (List Char)) :
    findBalanceLine m ls = none ↔
      ∀ l ∈ ls, containsSub m l = true → findAmounts l = [] := by
  induction ls with
  | nil => simp [findBalanceLine]
  | cons l rest ih =>
    unfold findBalanceLine
    by_cases hm : containsSub m l = true
    · simp only [hm, if_true]
      rcases hgl : (findAmounts l).getLast? with _ | a
      · rw [List.getLast?_eq_none_iff] at hgl
        rw [ih]
        constructor
        · intro h l' hl' hm'
          rcases List.mem_cons.mp hl' with rfl | hl'
          · exact hgl
          · exact h l' hl' hm'
        · intro h l' hl' hm'
          exact h l' (List.mem_cons_of_mem _ hl') hm'
      · constructor
        · intro h; cases h
        · intro h
          have h2 := h l (by simp) hm
          rw [h2] at hgl
          cases hgl
    · rw [Bool.not_eq_true] at hm
      simp only [hm, Bool.false_eq_true, if_false]
      rw [ih]
      constructor
      · intro h l' hl' hm'
        rcases List.mem_cons.mp hl' with rfl | hl'
        · rw [hm] at hm'; cases hm'
        · exact h l' hl' hm'
      · intro h l' hl' hm'
        exact h l' (List.mem_cons_of_mem _ hl') hm'

theorem findBalanceLine_of_find? (m : List Char) (ls : List (List Char))
    (l a : List Char) (hfind : ls.find? (fun x => containsSub m x) = some l)
    (ha : (findAmounts l).getLast? = some a) :
    findBalanceLine m ls = some (convertAmount a) := by
  induction ls with
  | nil => simp [List.find?] at hfind
  | cons x rest ih =>
    unfold findBalanceLine
    by_cases hm : containsSub m x = true
    · rw [List.find?_cons_of_pos _ (by simpa using hm)] at hfind
      injection hfind with hfind
      subst hfind
      simp only [hm, if_true, ha]
    · rw [List.find?_cons_of_neg _ (by simpa using hm)] at hfind
      rw [Bool.not_eq_true] at hm
      simp only [hm, Bool.false_eq_true, if_false]
      exact ih hfind

theorem findBalanceLine_of_find?_tok (m : List Char) (ls : List (List Char))
    (l a : List Char)
    (hfind : ls.find?
      (fun x => containsSub m x && !(findAmounts x).isEmpty) = some l)
    (ha : (findAmounts l).getLast? = some a) :
    findBalanceLine m ls = some (convertAmount a) := by
  induction ls with
  | nil => simp [List.find?] at hfind
  | cons x rest ih =>
    unfold findBalanceLine
    by_cases hp : (containsSub m x && !(findAmounts x).isEmpty) = true
    · rw [List.find?_cons_of_pos _ (by simpa using hp)] at hfind
      injection hfind with hfind
      subst hfind
      obtain ⟨hm, -⟩ := Bool.and_eq_true_iff.mp hp
      simp only [hm, if_true, ha]
    · rw [List.find?_cons_of_neg _ (by simpa using hp)] at hfind
      by_cases hm : containsSub m x = true
      · have hie : (findAmounts x).isEmpty = true := by
          cases hie : (findAmounts x).isEmpty with
          | false =>
            exfalso
            apply hp
            rw [Bool.and_eq_true_iff]
            refine ⟨hm, ?_⟩
            rw [hie]
            rfl
          | true => rfl
        have hempty : findAmounts x = [] := by
          cases hfa : findAmounts x with
          | nil => rfl
          | cons b bs => rw [hfa] at hie; cases hie
        simp only [hm, if_true, hempty]
        exact ih hfind
      · rw [Bool.not_eq_true] at hm
        simp only [hm, Bool.false_eq_true, if_false]
        exact ih hfind

theorem findTotal_eq_zero (ls : List (List Char))
    (h : ∀ l ∈ ls, containsSub numeroMark l = true → totalSearch l = none) :
    findTotal ls = 0 := by
  induction ls with
  | nil => rfl
  | cons l rest ih =>
    unfold findTotal
    by_cases hm : containsSub numeroMark l = true
    · simp only [hm, if_true, h l (by simp) hm]
      exact ih fun l' hl' => h l' (List.mem_cons_of_mem _ hl')
    · rw [Bool.not_eq_true] at hm
      simp only [hm, Bool.false_eq_true, if_false]
      exact ih fun l' hl' => h l' (List.mem_cons_of_mem _ hl')

/-- C5 counterexample: the text `"Conto corrente\nCitibank 1,00"` has a line
containing `"Conto corrente"`, yet the parser returns the amount of the
`"Citibank"` line — the fallback is taken although a `"Conto corrente"` line
exists (it merely carries no amount token).  The claim that the fallback is
used only when no `"Conto corrente"` line exists is therefore false. -/
theorem cash_fallback_counterexample :
    pysplitlines (("Conto corrente\nCitibank 1,00").toList) =
      [("Conto corrente").toList, ("Citibank 1,00").toList] ∧
    containsSub contoMark (("Conto corrente").toList) = true ∧
    findAmounts (("Conto corrente").toList) = [] ∧
    parse_tr_cash_statement (("Conto corrente\nCitibank 1,00").toList) =
      .ok 1 := by
  refine ⟨by decide, by decide, by decide, by decide⟩

/-- C5 amended: the `"Citibank"` fallback is used exactly when no
`"Conto corrente"` line yields at least one amount token.  Both directions:
if every `"Conto corrente"` line is token-free the result is whatever the
Citibank scan gives (error if it too finds nothing); and if some
`"Conto corrente"` line does bear a token — even after earlier token-free
ones — the parser returns the last token of the first such line, so the
fallback is never consulted.  The parser fails with `BalanceNotFound` if
and only if no line containing either marker yields at least one amount
token; no partial result is produced on failure. -/
theorem cash_fallback_amended (text : List Char) :
    ((∀ l ∈ pysplitlines text,
        containsSub contoMark l = true → findAmounts l = []) →
      parse_tr_cash_statement text =
        (match findBalanceLine citiMark (pysplitlines text) with
         | some v => Except.ok v
         | none => Except.error ParseError.balanceNotFound)) ∧
    (∀ l a, (pysplitlines text).find?
        (fun x => containsSub contoMark x && !(findAmounts x).isEmpty) = some l →
      (findAmounts l).getLast? = some a →
      parse_tr_cash_statement text = .ok (convertAmount a)) ∧
    (parse_tr_cash_statement text = .error .balanceNotFound ↔
      ∀ l ∈ pysplitlines text,
        (containsSub contoMark l = true ∨ containsSub citiMark l = true) →
          findAmounts l = []) := by
  refine ⟨?_, ?_, ?_⟩
  · intro h
    have h1 : findBalanceLine contoMark (pysplitlines text) = none :=
      (findBalanceLine_eq_none_iff _ _).mpr h
    unfold parse_tr_cash_statement
    rw [h1]
  · intro l a hfind ha
    unfold parse_tr_cash_statement
    rw [findBalanceLine_of_find?_tok contoMark _ l a hfind ha]
  · constructor
    · intro h
      unfold parse_tr_cash_statement at h
      cases h1 : findBalanceLine contoMark (pysplitlines text) with
      | some v => rw [h1] at h; cases h
      | none =>
        rw [h1] at h
        cases h2 : findBalanceLine citiMark (pysplitlines text) with
        | some v => rw [h2] at h; cases h
        | none =>
          intro l hl hm
          rcases hm with hm | hm
          · exact (findBalanceLine_eq_none_iff _ _).mp h1 l hl hm
          · exact (findBalanceLine_eq_none_iff _ _).mp h2 l hl hm
    · intro h
      have h1 : findBalanceLine contoMark (pysplitlines text) = none :=
        (findBalanceLine_eq_none_iff _ _).mpr fun l hl hm => h l hl (Or.inl hm)
      have h2 : findBalanceLine citiMark (pysplitlines text) = none :=
        (findBalanceLine_eq_none_iff _ _).mpr fun l hl hm => h l hl (Or.inr hm)
      unfold parse_tr_cash_statement
      rw [h1, h2]

/-- Witness for the amended C5, both directions: a text with no
`"Conto corrente"` line at all is resolved by the Citibank phase, and a
text whose first `"Conto corrente"` line is token-free but whose second
bears a token returns that token (`5.0`), not the Citibank amount. -/
theorem cash_fallback_amended_witness :
    parse_tr_cash_statement (("Citibank 2,00").toList) = .ok 2 ∧
    parse_tr_cash_statement
        (("Conto corrente\nConto corrente 5,00\nCitibank 9,00").toList) =
      .ok (convertAmount (("5,00").toList)) :=
  ⟨((cash_fallback_amended (("Citibank 2,00").toList)).1 (by decide)).trans
      (by decide),
    (cash_fallback_amended
        (("Conto corrente\nConto corrente 5,00\nCitibank 9,00").toList)).2.1
      (("Conto corrente 5,00").toList) (("5,00").toList) (by decide) (by decide)⟩

/-- C6: whenever the first line containing `"Conto corrente"` carries at
least one European amount token, the cash parser returns the last
(rightmost) token of that line, converted. -/
theorem cash_conto_last_token (text l a : List Char)
    (hfind : (pysplitlines text).find? (fun x => containsSub contoMark x) = some l)
    (ha : (findAmounts l).getLast? = some a) :
    parse_tr_cash_statement text = .ok (convertAmount a) := by
  unfold parse_tr_cash_statement
  rw [findBalanceLine_of_find? contoMark _ l a hfind ha]

/-- Witness for C6: the line `"Conto corrente 2.646,02 € 4.528,82 €"` yields
`4528.82`. -/
theorem cash_conto_last_token_witness :
    parse_tr_cash_statement (("Conto corrente 2.646,02 € 4.528,82 €").toList) =
      .ok (convertAmount (("4.528,82").toList)) ∧
    convertAmount (("4.528,82").toList) = 452882 / 100 :=
  ⟨cash_conto_last_token _ (("Conto corrente 2.646,02 € 4.528,82 €").toList)
      (("4.528,82").toList) (by decide) (by decide),
    by
      rw [show (452882 / 100 : ℚ) = mkRat 452882 100 from by
        rw [Rat.mkRat_eq_divInt, Rat.divInt_eq_div]; norm_num]
      decide⟩

/-- C7: when no `"NUMERO DI POSIZIONI"` line yields an amount token (for the
standalone parser: the bare pattern; for the position-aware parser: the
EUR-suffixed pattern), the standalone total parser fails with
`PortfolioTotalNotFound`, while the position-aware parser returns
`total_value = 0` without failing and still performs position extraction on
the same preprocessed lines. -/
theorem securities_total_asymmetry (text : List Char)
    (h1 : ∀ l ∈ pysplitlines text,
      containsSub numeroMark l = true → findAmounts l = [])
    (h2 : ∀ l ∈ preprocessLines text,
      containsSub numeroMark l = true → totalSearch l = none) :
    parse_tr_securities_statement text = .error .portfolioTotalNotFound ∧
    (parse_tr_securities_statement_with_positions text).1 = 0 ∧
    (parse_tr_securities_statement_with_positions text).2 =
      reconstructPositions (preprocessLines text) := by
  refine ⟨?_, ?_, rfl⟩
  · unfold parse_tr_securities_statement
    rw [(findBalanceLine_eq_none_iff _ _).mpr h1]
  · show findTotal (preprocessLines text) = 0
    exact findTotal_eq_zero _ h2

/-- Witness for C7 on a text with no marker line. -/
theorem securities_total_asymmetry_witness :
    parse_tr_securities_statement (("Hello\nWorld 1,00").toList) =
      .error .portfolioTotalNotFound ∧
    (parse_tr_securities_statement_with_positions (("Hello\nWorld 1,00").toList)).1 = 0 ∧
    (parse_tr_securities_statement_with_positions (("Hello\nWorld 1,00").toList)).2 =
      reconstructPositions (preprocessLines (("Hello\nWorld 1,00").toList)) :=
  securities_total_asymmetry (("Hello\nWorld 1,00").toList) (by decide) (by decide)

end Elara

namespace Elara

/-! ### The trailing-quantity rule (claim C1) -/

/-- C1 counterexample: on `["US0000000001", "5", "7"]` the second numeric
line overwrites the first, so the emitted quantity is `7`, not the first
match `5`; and on `["US0000000001", "Name 42"]` the line `"Name 42"` is not
entirely numeric yet still sets the quantity to `42` (the pattern is only
anchored at the end of the line) and is not appended to the name. -/
theorem quantity_rule_counterexample :
    (parse_tr_securities_statement_with_positions
        (("US0000000001\n5\n7").toList)).2 =
      [⟨[], ("US0000000001").toList, 7, 0⟩] ∧
    (parse_tr_securities_statement_with_positions
        (("US0000000001\nName 42").toList)).2 =
      [⟨[], ("US0000000001").toList, 42, 0⟩] :=
  ⟨by decide, by decide⟩

/-- C1 amended: with a holding open, a line whose trailing characters match
the end-anchored numeric pattern (the whole line need not be numeric) sets
the quantity to the parsed match — overwriting any earlier value, so the
LAST such line per holding wins — and is not appended to the name. -/
theorem quantity_rule_amended (st : PosState) (l q : List Char) (v : ℚ)
    (hiva : containsSub ivaMark l = false) (hpiva : containsSub pIvaMark l = false)
    (hisin : isinSearch l = none) (hopen : st.isin.isSome = true)
    (hq : qtySearch l = some q) (hv : parsePyFloat? (commaToDot q) = some v) :
    processLine st l = { st with qty := some v } := by
  unfold processLine
  have hb : (containsSub ivaMark l || containsSub pIvaMark l) = false := by
    rw [hiva, hpiva]; rfl
  simp only [hb, Bool.false_eq_true, if_false, hisin, hq, hopen, if_true, hv]

/-- Witness for the amended C1: a second numeric line replaces the stored
quantity `5` with `7`. -/
theorem quantity_rule_amended_witness :
    processLine (PosState.mk [] [] (some (("US0000000001").toList)) (some 5))
        (("7").toList) =
      { PosState.mk [] [] (some (("US0000000001").toList)) (some 5) with
          qty := some 7 } :=
  quantity_rule_amended
    (PosState.mk [] [] (some (("US0000000001").toList)) (some 5))
    (("7").toList) (("7").toList) 7
    (by decide) (by decide) (by decide) (by decide) (by decide) (by decide)

/-! ### The IVA filter (claim C4) -/

/-- C4 counterexample: a line containing `"IVA"` is not removed before total
extraction — the single-line text `"NUMERO DI POSIZIONI IVA 1,00 EUR"`
contains `"IVA"`, yet it sets the portfolio total to `1.0` (while being
skipped by the position loop). -/
theorem iva_preprocess_counterexample :
    containsSub ivaMark (("NUMERO DI POSIZIONI IVA 1,00 EUR").toList) = true ∧
    parse_tr_securities_statement_with_positions
        (("NUMERO DI POSIZIONI IVA 1,00 EUR").toList) = (1, []) :=
  ⟨by decide, by decide⟩

/-- C4 amended: a line containing `"IVA"` or `"P. IVA"` is skipped by the
position-reconstruction loop (it contributes nothing to any holding's
identifier, quantity or name), but the total-extraction scan runs on all
preprocessed lines, so such a line can still set the portfolio total. -/
theorem iva_skip_amended (st : PosState) (l : List Char)
    (h : containsSub ivaMark l = true ∨ containsSub pIvaMark l = true) :
    processLine st l = st ∧
    (parse_tr_securities_statement_with_positions
        (("NUMERO DI POSIZIONI IVA 1,00 EUR").toList)).1 = 1 := by
  constructor
  · unfold processLine
    have hb : (containsSub ivaMark l || containsSub pIvaMark l) = true := by
      rcases h with h | h <;> simp [h]
    simp only [hb, if_true]
  · decide

/-- Witness for the amended C4 at a concrete IVA line. -/
theorem iva_skip_amended_witness :
    processLine initState (("IVA").toList) = initState ∧
    (parse_tr_securities_statement_with_positions
        (("NUMERO DI POSIZIONI IVA 1,00 EUR").toList)).1 = 1 :=
  iva_skip_amended initState (("IVA").toList) (Or.inl (by decide))

/-! ### Identifier lines (claim C10) -/

/-- C10 counterexample: the line `"IVA US0000000001"` contains an
identifier-pattern match, but because it also contains `"IVA"` the
reconstructor skips it entirely: the identifier is NOT consumed, so the
following name and quantity lines are dropped and no holding is emitted. -/
theorem isin_line_counterexample :
    isinSearch (("IVA US0000000001").toList) = some (("US0000000001").toList) ∧
    parse_tr_securities_statement_with_positions
        (("IVA US0000000001\nSome name\n7").toList) = (0, []) :=
  ⟨by decide, by decide⟩

/-- C10 amended: when a line that passes the IVA filter contains an
identifier-pattern match, the reconstructor consumes only the identifier
and discards the rest of the line: the open holding (if any) is flushed,
and the line's remaining text is never appended to a name and never parsed
as a quantity. -/
theorem isin_line_amended (st : PosState) (l w : List Char)
    (hiva : containsSub ivaMark l = false) (hpiva : containsSub pIvaMark l = false)
    (hw : isinSearch l = some w) :
    processLine st l =
      (if st.isin.isSome then
        PosState.mk (st.positions ++ [mkHolding st]) [] (some w) none
      else { st with isin := some w }) := by
  unfold processLine
  have hb : (containsSub ivaMark l || containsSub pIvaMark l) = false := by
    rw [hiva, hpiva]; rfl
  simp only [hb, Bool.false_eq_true, if_false, hw]
  by_cases hs : st.isin.isSome = true
  · simp [hs]
  · simp [hs]

/-- Witness for the amended C10: an identifier-only line while idle just
captures the identifier. -/
theorem isin_line_amended_witness :
    processLine initState (("US0000000001").toList) =
      { initState with isin := some (("US0000000001").toList) } :=
  (isin_line_amended initState (("US0000000001").toList)
      (("US0000000001").toList) (by decide) (by decide) (by decide)).trans
    (by decide)

end Elara

namespace Elara

theorem digit_ne_dot (c : Char) (h : c.isDigit = true) : (c != '.') = true := by
  rcases eq_or_ne c '.' with rfl | hne
  · exact absurd h (by decide)
  · simp [hne]

theorem digit_ne_comma (c : Char) (h : c.isDigit = true) : c ≠ ',' :=
  fun hc => absurd (hc ▸ h) (by decide)

theorem stripDots_append (a b : List Char) :
    stripDots (a ++ b) = stripDots a ++ stripDots b :=
  List.filter_append _ _

theorem stripDots_digits (l : List Char) (h : l.all Char.isDigit = true) :
    stripDots l = l := by
  unfold stripDots
  apply List.filter_eq_self.mpr
  intro a ha
  exact digit_ne_dot a (List.all_eq_true.mp h a ha)

theorem stripDots_groupRender (groups : List (List Char))
    (h : ∀ g ∈ groups, g.all Char.isDigit = true) :
    stripDots (groupRender groups) = groups.flatten := by
  induction groups with
  | nil => rfl
  | cons g gs ih =>
    unfold groupRender
    simp only [List.map_cons, List.flatten_cons]
    rw [stripDots_append]
    have h1 : stripDots ('.' :: g) = g := by
      show List.filter _ ('.' :: g) = g
      rw [List.filter_cons]
      simp only [show (('.' : Char) != '.') = false from rfl, if_false]
      exact stripDots_digits g (h g (by simp))
    rw [h1]
    congr 1
    exact ih fun g' hg' => h g' (List.mem_cons_of_mem _ hg')

theorem commaToDot_append (a b : List Char) :
    commaToDot (a ++ b) = commaToDot a ++ commaToDot b :=
  List.map_append _ _ _

theorem commaToDot_digits (l : List Char) (h : l.all Char.isDigit = true) :
    commaToDot l = l := by
  induction l with
  | nil => rfl
  | cons c t ih =>
    simp only [List.all_cons, Bool.and_eq_true] at h
    simp only [commaToDot, List.map_cons]
    rw [if_neg (digit_ne_comma c h.1)]
    have := ih h.2
    simp only [commaToDot] at this
    rw [this]

theorem takeWhile_append_not (p : Char → Bool) (xs : List Char) (y : Char)
    (ys : List Char) (hx : ∀ x ∈ xs, p x = true) (hy : p y = false) :
    (xs ++ y :: ys).takeWhile p = xs ∧ (xs ++ y :: ys).dropWhile p = y :: ys := by
  induction xs with
  | nil => simp [List.takeWhile_cons, List.dropWhile_cons, hy]
  | cons a t ih =>
    have ha : p a = true := hx a (by simp)
    have iht := ih fun x hx' => hx x (List.mem_cons_of_mem _ hx')
    simp [List.takeWhile_cons, List.dropWhile_cons, ha, iht.1, iht.2]

theorem parsePyFloat?_digits_frac (D frac : List Char) (hD : D ≠ [])
    (hDd : ∀ x ∈ D, Char.isDigit x = true) (hf : frac ≠ [])
    (hfd : frac.all Char.isDigit = true) :
    parsePyFloat? (D ++ '.' :: frac) =
      some (mkRat (digitsToNat D * 10 ^ frac.length + digitsToNat frac)
        (10 ^ frac.length)) := by
  obtain ⟨htw, hdw⟩ := takeWhile_append_not Char.isDigit D '.' frac hDd (by decide)
  have hDne : D.isEmpty = false := by
    cases D with
    | nil => exact absurd rfl hD
    | cons a t => rfl
  have hfne : frac.isEmpty = false := by
    cases frac with
    | nil => exact absurd rfl hf
    | cons a t => rfl
  unfold parsePyFloat?
  rw [htw, hdw]
  simp [hDne, hfne, hfd]

end Elara

namespace Elara

/-- C8: for every token of the European amount pattern (one to three lead
digits, dot-separated three-digit groups, a comma and two fraction digits),
the conversion strips every `.`, turns the `,` into `.`, and parses the
result: the value is the concatenated digits plus the two fraction digits
over `100`. -/
theorem amount_conversion (lead : List Char) (groups : List (List Char))
    (f1 f2 : Char)
    (hlead : lead ≠ [] ∧ lead.length ≤ 3 ∧ lead.all Char.isDigit = true)
    (hg : ∀ g ∈ groups, g.length = 3 ∧ g.all Char.isDigit = true)
    (hf : f1.isDigit = true ∧ f2.isDigit = true) :
    convertAmount (lead ++ groupRender groups ++ [',', f1, f2]) =
      (digitsToNat (lead ++ groups.flatten) : ℚ) +
        (digitsToNat [f1, f2] : ℚ) / 100 := by
  obtain ⟨hne, -, hdig⟩ := hlead
  have hflat : ∀ x ∈ lead ++ groups.flatten, Char.isDigit x = true := by
    intro x hx
    rcases List.mem_append.mp hx with hx | hx
    · exact List.all_eq_true.mp hdig x hx
    · obtain ⟨g, hgmem, hxg⟩ := List.mem_flatten.mp hx
      exact List.all_eq_true.mp (hg g hgmem).2 x hxg
  have h1 : stripDots (lead ++ groupRender groups ++ [',', f1, f2]) =
      (lead ++ groups.flatten) ++ [',', f1, f2] := by
    rw [stripDots_append, stripDots_append, stripDots_digits lead hdig,
      stripDots_groupRender groups (fun g hg' => (hg g hg').2)]
    congr 1
    show List.filter _ [',', f1, f2] = [',', f1, f2]
    apply List.filter_eq_self.mpr
    intro a ha
    rcases List.mem_cons.mp ha with rfl | ha
    · rfl
    rcases List.mem_cons.mp ha with rfl | ha
    · exact digit_ne_dot a hf.1
    rcases List.mem_cons.mp ha with rfl | ha
    · exact digit_ne_dot a hf.2
    · cases ha
  have h2 : commaToDot ((lead ++ groups.flatten) ++ [',', f1, f2]) =
      (lead ++ groups.flatten) ++ '.' :: [f1, f2] := by
    rw [commaToDot_append,
      commaToDot_digits _ (List.all_eq_true.mpr hflat)]
    congr 1
    simp [commaToDot, if_neg (digit_ne_comma f1 hf.1),
      if_neg (digit_ne_comma f2 hf.2)]
  have h3 := parsePyFloat?_digits_frac (lead ++ groups.flatten) [f1, f2]
    (by cases lead with | nil => exact absurd rfl hne | cons a t => simp)
    hflat (by simp) (by simp [hf.1, hf.2])
  unfold convertAmount
  rw [h1, h2, h3]
  show mkRat (digitsToNat (lead ++ groups.flatten) * 10 ^ 2 + digitsToNat [f1, f2])
      (10 ^ 2) = _
  rw [Rat.mkRat_eq_divInt, Rat.divInt_eq_div]
  push_cast
  field_simp

end Elara

namespace Elara

/-- Witness for C8 at the two tokens named by the spec:
`"62.348,68"` and `"14,00"`. -/
theorem amount_conversion_witness :
    convertAmount (("62.348,68").toList) =
      (digitsToNat (("62348").toList) : ℚ) +
        (digitsToNat (("68").toList) : ℚ) / 100 ∧
    convertAmount (("14,00").toList) =
      (digitsToNat (("14").toList) : ℚ) +
        (digitsToNat (("00").toList) : ℚ) / 100 :=
  ⟨amount_conversion (("62").toList) [("348").toList] '6' '8'
      (by decide) (by decide) (by decide),
    amount_conversion (("14").toList) [] '0' '0'
      (by decide) (by decide) (by decide)⟩

end Elara
